import Mathlib

/- A shallow embedding of the props-model reactive property container
   (src/lib/props-model.js) together with proofs about its get/set
   protocol, its derived-property engine and its access-control layer.

   JavaScript values are modelled by `JsVal`; `undefined` is `JsVal.undef`.
   The event emitter is modelled explicitly: events emitted by an operation
   are collected into traces, and the internal subscriptions installed by
   `defineDerivedProp` are stored in the model and executed synchronously
   (with explicit fuel, since the real synchronous cascade is unbounded
   stack recursion).

   Because the JavaScript code mutates `this._props` in place, a thrown
   error leaves whatever mutations already happened.  The embedding is
   therefore written in a throw-carrying style: the result of each mutating
   operation (`Res`) records, for the error case as well, the state of the
   model and the events already emitted at the moment of the throw.  This
   keeps "an error leaves the store untouched" a real theorem about the
   order of the checks rather than an artifact of a purely functional
   encoding. -/

/-- A JavaScript value, as used by the property store.  `undef` models
`undefined`; primitive values have value (`===`) equality, which is all the
model needs (no reference types appear in the claims). -/
inductive JsVal where
  | undef
  | boolV (b : Bool)
  | num (n : Int)
  | str (s : String)
deriving DecidableEq

/-- `defaultDidChange` from the source: `newValue !== oldValue`. -/
def defaultDidChange (newValue oldValue : JsVal) : Bool :=
  newValue != oldValue

/-- The no-op value validator `NOOP` (the default `valueValidator` of
`defineProp`).  The source calls `valueValidator(value)` with a single
argument; a two-parameter JavaScript function then receives `undefined` for
its second parameter, so validators are modelled as functions of two
`JsVal` arguments and the call sites pass `JsVal.undef` explicitly. -/
def noopValueValidator : JsVal → JsVal → Except String Unit :=
  fun _ _ => Except.ok ()

/-- One record of `this._props`: `{ value, derived, valueValidator, didChange }`. -/
structure PropRec where
  value : JsVal
  derived : Bool
  valueValidator : JsVal → JsVal → Except String Unit
  didChange : JsVal → JsVal → Bool

/-- `this._props`: a name-to-record map; JavaScript objects with string keys
preserve insertion order, hence an association list. -/
abbrev PropsMap := List (String × PropRec)

/-- The topic a property change event is emitted on: `` `${propName}-changed` ``. -/
def changedTopic (n : String) : String := n ++ "-changed"

/-- A property change event as emitted by `_firePropChangeEvent`:
`emit(topic, propName, newValue, oldValue)`. -/
structure Event where
  topic : String
  propName : String
  newValue : JsVal
  oldValue : JsVal
deriving DecidableEq

/-- The event `_firePropChangeEvent(propName, newValue, oldValue)` emits. -/
def mkEvent (n : String) (v old : JsVal) : Event :=
  { topic := changedTopic n, propName := n, newValue := v, oldValue := old }

/-- The change handler `defineDerivedProp` subscribes to each dependency:
`() => { this.set(propName, calculateValue()) }`, where `calculateValue`
is the utilizer over `dependsOn` and the calculator. -/
structure DHandler where
  target : String
  deps : List String
  calcFn : List JsVal → JsVal

/-- The whole mutable state of a `PropsModel` instance together with the
subscriptions the model itself installed on its event emitter. -/
structure Model where
  props : PropsMap
  subs : List (String × DHandler)

/-- Result of a mutating operation: the final model and the events emitted,
with the error case also carrying the state/trace at the moment of the
throw (JavaScript exceptions do not roll back in-place mutation). -/
inductive Res where
  | ok (m : Model) (events : List Event)
  | err (msg : String) (m : Model) (events : List Event)

def Res.model : Res → Model
  | Res.ok m _ => m
  | Res.err _ m _ => m

def Res.events : Res → List Event
  | Res.ok _ evs => evs
  | Res.err _ _ evs => evs

def Res.errMsg : Res → Option String
  | Res.ok _ _ => none
  | Res.err e _ _ => some e

/- Error messages, verbatim from the source (including the `non-existant`
spelling).  `\x27` is the ASCII apostrophe. -/

def noSuchMsg (n : String) : String :=
  "No such property \x27" ++ n ++ "\x27"

def dupMsg (n : String) : String :=
  "Property already defined: " ++ n

def utilizerMsg (n : String) : String :=
  "Cannot create utilizer of unknown property \x27" ++ n ++ "\x27"

def derivedMsg (n : String) : String :=
  "Write access to " ++ n ++ " is not allowed because the property is a derived property."

def notPublicMsg (n : String) : String :=
  "Property is not publicly accessible: " ++ n

def notAllowedMsg (n : String) : String :=
  "Requested access to property \x27" ++ n ++ "\x27 is not allowed"

def nonExistantMsg (n : String) : String :=
  "Cannot create accessors for non-existant property \x27" ++ n ++ "\x27"

def unknownAccessMsg (a n : String) : String :=
  "Unknown access type \x27" ++ a ++ "\x27 specified for property \x27" ++ n ++ "\x27"

/-- Lookup of `this._props[propName]` (names are unique object keys). -/
def lookupProp : PropsMap → String → Option PropRec
  | [], _ => none
  | (k, p) :: rest, n => if k = n then some p else lookupProp rest n

/-- `this._props[propName].value = value` (in-place update of one record;
a missing name would be a TypeError in JavaScript and is unreachable at
every call site because existence is checked first; the embedding leaves
the map unchanged in that case). -/
def setValue : PropsMap → String → JsVal → PropsMap
  | [], _, _ => []
  | (k, p) :: rest, n, v =>
    if k = n then (k, { p with value := v }) :: rest else (k, p) :: setValue rest n v

/-- `this._props[propName].value` (missing name: unreachable TypeError,
modelled as `undefined`). -/
def getValue (props : PropsMap) (n : String) : JsVal :=
  match lookupProp props n with
  | some p => p.value
  | none => JsVal.undef

/-- An access validator (`propValidator` in the source): a closure over the
model that throws to deny access to a property name.  The in-repo
validators read `propModel._props`, so the props map is passed explicitly. -/
abbrev Validator := PropsMap → String → Except String Unit

/-- The no-op access validator `() => {}` used by the unrestricted API. -/
def noVal : Validator := fun _ _ => Except.ok ()

/-- `propNameIsPublic`: the name does not start with an underscore
(`propName.startsWith('_')`, written on the character list so that it
evaluates by `rfl`). -/
def propNameIsPublic (n : String) : Bool :=
  match n.data with
  | [] => true
  | c :: _ => !(c == '_')

/-- `assertPropNameIsPublic`. -/
def assertPropNameIsPublic (n : String) : Except String Unit :=
  if propNameIsPublic n then Except.ok () else Except.error (notPublicMsg n)

/-- `createStandardWriteValidator(propModel)`: rejects writes to derived
properties by reading `propModel._props[propName].derived` at call time.
(A missing name would be a TypeError; every caller checks existence first,
so that branch is unreachable and modelled as success.) -/
def standardWriteValidator : Validator := fun props n =>
  match lookupProp props n with
  | some p => if p.derived then Except.error (derivedMsg n) else Except.ok ()
  | none => Except.ok ()

/-- The read validator of `getStandardPublicApi()`: `assertPropNameIsPublic`. -/
def publicReadValidator : Validator := fun _ n => assertPropNameIsPublic n

/-- The write validator of `getStandardPublicApi()`: assert the name is
public, then apply the standard (derived-property) write validator. -/
def publicWriteValidator : Validator := fun props n =>
  match assertPropNameIsPublic n with
  | Except.error e => Except.error e
  | Except.ok _ => standardWriteValidator props n

/-- The read validator of `getStandardPrivateApi()`: `() => {}`. -/
def privateReadValidator : Validator := noVal

/-- The write validator of `getStandardPrivateApi()`:
`createStandardWriteValidator(this)`. -/
def privateWriteValidator : Validator := standardWriteValidator

/- ------------------------------------------------------------------ -/
/- `_set`, single-property form (the `else` branch of `_set`).         -/
/- ------------------------------------------------------------------ -/

/-- `this._props[propName].didChange(value, oldValue)` read against a given
props map (missing name: unreachable, modelled as `false`). -/
def didChangeAt (props : PropsMap) (n : String) (v old : JsVal) : Bool :=
  match lookupProp props n with
  | some p => p.didChange v old
  | none => false

/-- The single-property branch of `_set(propValidator, propName, value)`:
existence check, access validation, value validation (the validator is
called with the single argument `value`, hence `JsVal.undef` as its second
parameter), then in-place write, then `didChange` and at most one event. -/
def setSingleT (pv : Validator) (m : Model) (n : String) (v : JsVal) : Res :=
  match lookupProp m.props n with
  | none => Res.err (noSuchMsg n) m []
  | some p =>
    match pv m.props n with
    | Except.error e => Res.err e m []
    | Except.ok _ =>
      match p.valueValidator v JsVal.undef with
      | Except.error e => Res.err e m []
      | Except.ok _ =>
        let old := p.value
        let props2 := setValue m.props n v
        if didChangeAt props2 n v old then
          Res.ok { m with props := props2 } [mkEvent n v old]
        else
          Res.ok { m with props := props2 } []

/- ------------------------------------------------------------------ -/
/- `_set`, batch form (the `args.length === 1` branch).                -/
/- ------------------------------------------------------------------ -/

/-- First key of the batch that names no defined property
(`Object.keys(args[0]).forEach` existence loop). -/
def findMissing (props : PropsMap) : List String → Option String
  | [] => none
  | k :: ks =>
    if (lookupProp props k).isSome then findMissing props ks else some k

/-- First error raised by `Object.keys(args[0]).forEach(propValidator)`. -/
def firstValidatorErr (pv : Validator) (props : PropsMap) : List String → Option String
  | [] => none
  | k :: ks =>
    match pv props k with
    | Except.error e => some e
    | Except.ok _ => firstValidatorErr pv props ks

/-- First error raised by the value-validation loop
`this._props[propName].valueValidator(value)` (single argument, so the
second parameter is `undefined`; a missing record is unreachable because
existence was checked first). -/
def firstValueValidatorErr (props : PropsMap) : List (String × JsVal) → Option String
  | [] => none
  | (n, v) :: rest =>
    match lookupProp props n with
    | some p =>
      match p.valueValidator v JsVal.undef with
      | Except.error e => some e
      | Except.ok _ => firstValueValidatorErr props rest
    | none => firstValueValidatorErr props rest

/-- The write loop: push the current value onto `oldValues`, overwrite the
stored value, in batch iteration order.  Returns the final map and the
captured old values. -/
def writeAll (props : PropsMap) : List (String × JsVal) → PropsMap × List JsVal
  | [] => (props, [])
  | (n, v) :: rest =>
    let old := getValue props n
    let step := writeAll (setValue props n v) rest
    (step.fst, old :: step.snd)

/-- Pair each batch entry with its captured old value (the notify loop
indexes `oldValues[idx]`). -/
def zipOlds : List (String × JsVal) → List JsVal → List (String × JsVal × JsVal)
  | [], _ => []
  | _, [] => []
  | (n, v) :: rest, old :: olds => (n, v, old) :: zipOlds rest olds

/-- The notify loop: for each entry in batch iteration order, evaluate
`didChange` (read from the post-write map) and emit at most one event. -/
def notifyAll (props : PropsMap) : List (String × JsVal × JsVal) → List Event
  | [] => []
  | (n, v, old) :: rest =>
    (if didChangeAt props n v old then [mkEvent n v old] else []) ++ notifyAll props rest

/-- The batch branch of `_set(propValidator, propValues)`: all existence
checks, then all access checks, then all value validations, then all
writes, then the per-entry notifications. -/
def setBatchT (pv : Validator) (m : Model) (entries : List (String × JsVal)) : Res :=
  match findMissing m.props (entries.map Prod.fst) with
  | some k => Res.err (noSuchMsg k) m []
  | none =>
    match firstValidatorErr pv m.props (entries.map Prod.fst) with
    | some e => Res.err e m []
    | none =>
      match firstValueValidatorErr m.props entries with
      | some e => Res.err e m []
      | none =>
        let written := writeAll m.props entries
        Res.ok { m with props := written.fst }
          (notifyAll written.fst (zipOlds entries written.snd))

/- ------------------------------------------------------------------ -/
/- `_get`, `_createUtilizer`, property definition.                     -/
/- ------------------------------------------------------------------ -/

/-- `_get(propValidator, propName)`: note the access validator runs
*before* the existence check. -/
def getT (pv : Validator) (m : Model) (n : String) : Except String JsVal :=
  match pv m.props n with
  | Except.error e => Except.error e
  | Except.ok _ =>
    match lookupProp m.props n with
    | none => Except.error (noSuchMsg n)
    | some p => Except.ok p.value

/-- The closure `_createUtilizer` returns, applied with no extra
arguments: read the current values of the named properties, in order, and
hand them to the handler. -/
def calcUtilizer (props : PropsMap) (deps : List String) (calcFn : List JsVal → JsVal) : JsVal :=
  calcFn (deps.map (getValue props))

/-- `defineProp(propName, initialValue, valueValidator, didChange)`:
duplicate check, record creation, then the initial `didChange`/event. -/
def definePropT (m : Model) (n : String) (initV : JsVal)
    (vv : JsVal → JsVal → Except String Unit) (dc : JsVal → JsVal → Bool) : Res :=
  match lookupProp m.props n with
  | some _ => Res.err (dupMsg n) m []
  | none =>
    let rec0 : PropRec := { value := initV, derived := false, valueValidator := vv, didChange := dc }
    let props2 := m.props ++ [(n, rec0)]
    if dc initV JsVal.undef then
      Res.ok { m with props := props2 } [mkEvent n initV JsVal.undef]
    else
      Res.ok { m with props := props2 } []

/-- `defineDerivedProp(propName, dependsOn, calculateValue, initialValue,
didChange)`: duplicate check; `createUtilizer` (whose unknown-dependency
check throws before anything is created); initial value (`typeof
initialValue === 'undefined'` triggers calculation); record creation with
the no-op value validator `() => {}`; subscription of the recompute
handler to every dependency topic; then the initial `didChange`/event. -/
def defineDerivedT (m : Model) (n : String) (deps : List String)
    (calcFn : List JsVal → JsVal) (initV : JsVal) (dc : JsVal → JsVal → Bool) : Res :=
  match lookupProp m.props n with
  | some _ => Res.err (dupMsg n) m []
  | none =>
    match findMissing m.props deps with
    | some d => Res.err (utilizerMsg d) m []
    | none =>
      let value := if initV = JsVal.undef then calcUtilizer m.props deps calcFn else initV
      let rec0 : PropRec :=
        { value := value, derived := true
          valueValidator := fun _ _ => Except.ok (), didChange := dc }
      let props2 := m.props ++ [(n, rec0)]
      let subs2 := m.subs ++ deps.map (fun d =>
        (changedTopic d, { target := n, deps := deps, calcFn := calcFn : DHandler }))
      if dc value JsVal.undef then
        Res.ok { props := props2, subs := subs2 } [mkEvent n value JsVal.undef]
      else
        Res.ok { props := props2, subs := subs2 } []

/- ------------------------------------------------------------------ -/
/- The synchronous notification cascade (event emitter fan-out).       -/
/- ------------------------------------------------------------------ -/

/-- The listeners registered for a topic, in subscription order. -/
def subsFor (subs : List (String × DHandler)) (topic : String) : List DHandler :=
  (subs.filter (fun s => s.fst = topic)).map Prod.snd

/-- Marker for exhausted fuel; the real cascade is unbounded stack
recursion, so the embedding bounds it explicitly.  No theorem in this file
depends on the marker being reachable. -/
def fuelMsg : String := "MODEL OUT OF FUEL"

/-- Run the listeners of one emitted event in order; each listener is a
derived-property recompute handler `() => set(target, calc(deps...))`,
executed through the supplied set operation.  Traces accumulate in firing
order, and an exception propagates out of `emit` with everything already
emitted kept. -/
def runSubsWith (doSet : Model → String → JsVal → Res) : Model → List DHandler → Res
  | m, [] => Res.ok m []
  | m, h :: rest =>
    match doSet m h.target (calcUtilizer m.props h.deps h.calcFn) with
    | Res.err e m2 t => Res.err e m2 t
    | Res.ok m2 t =>
      match runSubsWith doSet m2 rest with
      | Res.err e m3 t2 => Res.err e m3 (t ++ t2)
      | Res.ok m3 t2 => Res.ok m3 (t ++ t2)

/-- Process a list of events whose emission is already decided: each event
fires (appears in the trace), then its listeners run synchronously before
the next event fires.  This matches the source because listeners only ever
mutate property *values*, never the `didChange` functions or the captured
old values that decide the pending notifications. -/
def fanoutWith (doSet : Model → String → JsVal → Res) : Model → List Event → Res
  | m, [] => Res.ok m []
  | m, ev :: rest =>
    match runSubsWith doSet m (subsFor m.subs ev.topic) with
    | Res.err e m2 t => Res.err e m2 (ev :: t)
    | Res.ok m2 t =>
      match fanoutWith doSet m2 rest with
      | Res.err e m3 t2 => Res.err e m3 (ev :: (t ++ t2))
      | Res.ok m3 t2 => Res.ok m3 (ev :: (t ++ t2))

/-- `this.set(propName, value)` as invoked from inside a change handler:
the unrestricted single-property set followed by the synchronous fan-out
of whatever it emitted, with explicit fuel for the recursion depth. -/
def stepSet (fuel : Nat) : Model → String → JsVal → Res :=
  Nat.rec (motive := fun _ => Model → String → JsVal → Res)
    (fun m _ _ => Res.err fuelMsg m [])
    (fun _ ih m n v =>
      match setSingleT noVal m n v with
      | Res.err e m2 evs => Res.err e m2 evs
      | Res.ok m2 evs => fanoutWith ih m2 evs)
    fuel

/-- A view's `set(propName, value)` with its full synchronous cascade. -/
def singleSetModel (fuel : Nat) (pv : Validator) (m : Model) (n : String) (v : JsVal) : Res :=
  match setSingleT pv m n v with
  | Res.err e m2 evs => Res.err e m2 evs
  | Res.ok m2 evs => fanoutWith (stepSet fuel) m2 evs

/-- A view's `set(propValues)` (batch form) with its full cascade. -/
def batchSetModel (fuel : Nat) (pv : Validator) (m : Model) (entries : List (String × JsVal)) : Res :=
  match setBatchT pv m entries with
  | Res.err e m2 evs => Res.err e m2 evs
  | Res.ok m2 evs => fanoutWith (stepSet fuel) m2 evs

/-- `defineProp` with the cascade of its initial notification. -/
def definePropModel (fuel : Nat) (m : Model) (n : String) (initV : JsVal)
    (vv : JsVal → JsVal → Except String Unit) (dc : JsVal → JsVal → Bool) : Res :=
  match definePropT m n initV vv dc with
  | Res.err e m2 evs => Res.err e m2 evs
  | Res.ok m2 evs => fanoutWith (stepSet fuel) m2 evs

/-- `defineDerivedProp` with the cascade of its initial notification. -/
def defineDerivedModel (fuel : Nat) (m : Model) (n : String) (deps : List String)
    (calcFn : List JsVal → JsVal) (initV : JsVal) (dc : JsVal → JsVal → Bool) : Res :=
  match defineDerivedT m n deps calcFn initV dc with
  | Res.err e m2 evs => Res.err e m2 evs
  | Res.ok m2 evs => fanoutWith (stepSet fuel) m2 evs

def emptyModel : Model := { props := [], subs := [] }

/- ------------------------------------------------------------------ -/
/- Concrete models used by the claim theorems and witnesses.           -/
/- ------------------------------------------------------------------ -/

/-- A plain primary-property record with the default validator and change
rule (shorthand for the examples). -/
def plainRec (v : JsVal) : PropRec :=
  { value := v, derived := false
    valueValidator := noopValueValidator, didChange := defaultDidChange }

/-- A three-argument calculator: `(a, b, c) => a + 2*b + 3*c` (chosen so
that every mixture of pre- and post-batch dependency values yields a
different result). -/
def exCalc3 : List JsVal → JsVal
  | [JsVal.num a, JsVal.num b, JsVal.num c] => JsVal.num (a + 2 * b + 3 * c)
  | _ => JsVal.undef

/-- Three primaries `foo1 = 1`, `foo2 = 2`, `foo3 = 3` and one derived
property `d` calculated from all three, built through the definition
operations themselves. -/
def exC1m : Model :=
  (defineDerivedModel 5
    (definePropModel 5
      (definePropModel 5
        (definePropModel 5 emptyModel "foo1" (JsVal.num 1) noopValueValidator defaultDidChange).model
        "foo2" (JsVal.num 2) noopValueValidator defaultDidChange).model
      "foo3" (JsVal.num 3) noopValueValidator defaultDidChange).model
    "d" ["foo1", "foo2", "foo3"] exCalc3 JsVal.undef defaultDidChange).model

def exC1entries : List (String × JsVal) :=
  [("foo1", JsVal.num 11), ("foo2", JsVal.num 9), ("foo3", JsVal.num 4)]

/-- The batch `set({foo1: 11, foo2: 9, foo3: 4})` with its full cascade. -/
def exC1res : Res := batchSetModel 10 noVal exC1m exC1entries

/-- The same batch at the store layer only (no cascade), for the witness of
the structural batch theorem. -/
def exC1setRes : Res := setBatchT noVal exC1m exC1entries

/- ------------------------------------------------------------------ -/
/- `_installAccessors`.                                                -/
/- ------------------------------------------------------------------ -/

/-- `createAccessorNames`: capitalize the first character of the property
name (the regex `/^./` matches nothing on the empty string). -/
def capFirst (s : String) : String :=
  match s.data with
  | [] => s
  | c :: cs => String.mk (c.toUpper :: cs)

/-- `access.toLowerCase()` (written on the character list so that it
evaluates by `rfl`). -/
def lowerStr (s : String) : String :=
  String.mk (s.data.map Char.toLower)

/-- An accessor method installed on the target object.  A getter closure
reads `this._props[propName].value` at call time; a setter closure calls
`this._set(() => {}, propName, value)` at call time.  Both close over the
(mutable) store, so they take the current model state explicitly. -/
inductive Accessor where
  | getter (f : PropsMap → JsVal)
  | setter (f : Model → JsVal → Res)

/-- The first validation loop of `_installAccessors`: for every entry, the
existence check, then per access mode the read (and for `readwrite` also
the write) validator; unknown modes throw.  Returns the first error. -/
def accessCheck (readV writeV : Validator) (props : PropsMap) :
    List (String × String) → Option String
  | [] => none
  | (n, access) :: rest =>
    if (lookupProp props n).isSome then
      if lowerStr access = "readonly" then
        match readV props n with
        | Except.error e => some e
        | Except.ok _ => accessCheck readV writeV props rest
      else if lowerStr access = "readwrite" then
        match readV props n with
        | Except.error e => some e
        | Except.ok _ =>
          match writeV props n with
          | Except.error e => some e
          | Except.ok _ => accessCheck readV writeV props rest
      else if lowerStr access = "none" then
        accessCheck readV writeV props rest
      else
        some (unknownAccessMsg access n)
    else
      some (nonExistantMsg n)

/-- The second loop of `_installAccessors`: attach the accessor closures.
Note the installed setter delegates to `this._set(() => {}, propName,
value)` — the *unrestricted* write path, not the view's validator. -/
def buildAccessors : List (String × String) → List (String × Accessor)
  | [] => []
  | (n, access) :: rest =>
    (if lowerStr access = "readonly" then
      [("get" ++ capFirst n, Accessor.getter (fun props => getValue props n))]
    else if lowerStr access = "readwrite" then
      [("get" ++ capFirst n, Accessor.getter (fun props => getValue props n)),
       ("set" ++ capFirst n, Accessor.setter (fun m v => setSingleT noVal m n v))]
    else
      []) ++ buildAccessors rest

/-- `_installAccessors(readValidator, writeValidator, target, propertyAccess)`:
validate every entry up front, then build the accessor methods. -/
def installAccessorsT (readV writeV : Validator) (m : Model)
    (propertyAccess : List (String × String)) : Except String (List (String × Accessor)) :=
  match accessCheck readV writeV m.props propertyAccess with
  | some e => Except.error e
  | none => Except.ok (buildAccessors propertyAccess)

/- ------------------------------------------------------------------ -/
/- Statement-side definitions (characterisations proved equal to the   -/
/- source embedding, and spec-modelled behaviour for refuted claims).  -/
/- ------------------------------------------------------------------ -/

/-- Everything in a property record except its value. -/
def PropRec.shape (p : PropRec) :
    Bool × (JsVal → JsVal → Except String Unit) × (JsVal → JsVal → Bool) :=
  (p.derived, p.valueValidator, p.didChange)

/-- Independent characterisation of the notifications of a successful
batch `set`, computed entirely from the *pre-batch* store: one event per
entry, in batch iteration order, fired iff the property's `didChange`
accepts the transition from its pre-batch value. -/
def batchNotifySpec (props : PropsMap) : List (String × JsVal) → List Event
  | [] => []
  | (n, v) :: rest =>
    (match lookupProp props n with
     | some p => if p.didChange v p.value then [mkEvent n v p.value] else []
     | none => []) ++ batchNotifySpec props rest

/-- Modelled from the spec's words for claim C4 (not from the source): a
single-property set whose value validator is invoked with
`(incomingValue, currentValue)`.  The source instead calls
`valueValidator(value)` with one argument. -/
def setSingleClaimArgs (pv : Validator) (m : Model) (n : String) (v : JsVal) : Res :=
  match lookupProp m.props n with
  | none => Res.err (noSuchMsg n) m []
  | some p =>
    match pv m.props n with
    | Except.error e => Res.err e m []
    | Except.ok _ =>
      match p.valueValidator v p.value with
      | Except.error e => Res.err e m []
      | Except.ok _ =>
        let old := p.value
        let props2 := setValue m.props n v
        if didChangeAt props2 n v old then
          Res.ok { m with props := props2 } [mkEvent n v old]
        else
          Res.ok { m with props := props2 } []

/- ------------------------------------------------------------------ -/
/- Further concrete models for the corrected claims.                   -/
/- ------------------------------------------------------------------ -/

/-- The record `defineDerivedProp` stores for a zero-dependency derived
property calculated to `0`. -/
def exDerivedRec : PropRec :=
  { value := JsVal.num 0, derived := true
    valueValidator := fun _ _ => Except.ok (), didChange := defaultDidChange }

/-- Two derived properties, one public (`d`) and one underscore-prefixed
(`_d`), each calculated by a zero-dependency calculator. -/
def exC3m : Model :=
  (defineDerivedModel 5
    (defineDerivedModel 5 emptyModel "d" [] (fun _ => JsVal.num 0)
      JsVal.undef defaultDidChange).model
    "_d" [] (fun _ => JsVal.num 0) JsVal.undef defaultDidChange).model

/-- A value validator that rejects exactly when its second parameter is
`undefined`.  Under the spec's claimed calling convention
`validator(value, currentValue)` it would accept any write to a property
whose current value is defined; under the source's actual single-argument
call it always rejects. -/
def undefSpottingValidator : JsVal → JsVal → Except String Unit :=
  fun _ cur =>
    if cur = JsVal.undef then Except.error ("second argument was undefined") else Except.ok ()

/-- A primary-property record `x = 5` guarded by `undefSpottingValidator`. -/
def exC4rec : PropRec :=
  { value := JsVal.num 5, derived := false
    valueValidator := undefSpottingValidator, didChange := defaultDidChange }

/-- A store with one primary `x = 5` guarded by `undefSpottingValidator`. -/
def exC4m : Model := { props := [("x", exC4rec)], subs := [] }

/-- A write validator that closes over the store and rejects every write
while the property `flag` holds `true` (the standard write validator is a
state-reading closure of the same kind). -/
def lockedWriteValidator : Validator := fun props _ =>
  if getValue props "flag" = JsVal.boolV true then Except.error ("locked") else Except.ok ()

/-- A store with `x = 1` and `flag = false`. -/
def exC9m1 : Model :=
  (definePropModel 5
    (definePropModel 5 emptyModel "x" (JsVal.num 1) noopValueValidator defaultDidChange).model
    "flag" (JsVal.boolV false) noopValueValidator defaultDidChange).model

/-- Install a `readwrite` accessor pair for `x` through a view whose write
validator is `lockedWriteValidator` (installation succeeds: `flag` is
`false` at installation time). -/
def exC9install : Except String (List (String × Accessor)) :=
  installAccessorsT noVal lockedWriteValidator exC9m1 [("x", "readwrite")]

/-- The installed `setX` closure. -/
def exC9setter : Model → JsVal → Res :=
  match exC9install with
  | Except.ok (_ :: (_, Accessor.setter f) :: _) => f
  | _ => fun m _ => Res.err ("unexpected") m []

/-- The store after `flag` was subsequently set to `true`, so that the
view's write validator now rejects every write. -/
def exC9m2 : Model := (singleSetModel 5 noVal exC9m1 "flag" (JsVal.boolV true)).model

/-- `foo = 15` (for the C6 witness). -/
def exFooM : Model :=
  (definePropModel 5 emptyModel "foo" (JsVal.num 15) noopValueValidator defaultDidChange).model

/-- `a = 2`, `b = 3` (for the C7 witness). -/
def exC7m : Model :=
  (definePropModel 5
    (definePropModel 5 emptyModel "a" (JsVal.num 2) noopValueValidator defaultDidChange).model
    "b" (JsVal.num 3) noopValueValidator defaultDidChange).model

/-- A two-argument sum calculator. -/
def sumCalc : List JsVal → JsVal
  | [JsVal.num a, JsVal.num b] => JsVal.num (a + b)
  | _ => JsVal.undef

/- ------------------------------------------------------------------ -/
/- Helper lemmas.                                                      -/
/- ------------------------------------------------------------------ -/

theorem setSingle_eq_batchOne (pv : Validator) (m : Model) (n : String) (v : JsVal) :
    setSingleT pv m n v = setBatchT pv m [(n, v)] := by
  unfold setSingleT setBatchT
  cases h : lookupProp m.props n with
  | none => simp [findMissing, h]
  | some p =>
    simp only [List.map, findMissing, h, Option.isSome_some, if_true]
    cases hpv : pv m.props n with
    | error e => simp [firstValidatorErr, hpv]
    | ok u =>
      simp only [firstValidatorErr, hpv]
      cases hvv : p.valueValidator v JsVal.undef with
      | error e => simp [firstValueValidatorErr, h, hvv]
      | ok u2 =>
        simp only [firstValueValidatorErr, h, hvv]
        have hold : getValue m.props n = p.value := by simp [getValue, h]
        simp only [writeAll, zipOlds, notifyAll, hold]
        cases didChangeAt (setValue m.props n v) n v p.value <;> simp

theorem lookup_setValue_self (props : PropsMap) (n : String) (v : JsVal) :
    lookupProp (setValue props n v) n =
      (lookupProp props n).map (fun p => { p with value := v }) := by
  induction props with
  | nil => rfl
  | cons hd rest ih =>
    obtain ⟨k, p⟩ := hd
    by_cases hk : k = n
    · simp [setValue, lookupProp, hk]
    · simp [setValue, lookupProp, hk, ih]

theorem lookup_setValue_ne (props : PropsMap) {n k : String} (v : JsVal) (h : k ≠ n) :
    lookupProp (setValue props n v) k = lookupProp props k := by
  induction props with
  | nil => rfl
  | cons hd rest ih =>
    obtain ⟨k2, p⟩ := hd
    by_cases hk : k2 = n
    · subst hk
      have : k2 ≠ k := fun hkk => h (hkk ▸ rfl)
      simp [setValue, lookupProp, this]
    · by_cases hk2 : k2 = k
      · subst hk2
        simp [setValue, lookupProp, hk]
      · simp [setValue, lookupProp, hk, hk2, ih]

theorem shape_setValue (props : PropsMap) (n k : String) (v : JsVal) :
    (lookupProp (setValue props n v) k).map PropRec.shape =
      (lookupProp props k).map PropRec.shape := by
  by_cases h : k = n
  · subst h
    rw [lookup_setValue_self]
    cases lookupProp props k <;> rfl
  · rw [lookup_setValue_ne props v h]

theorem getValue_setValue_ne (props : PropsMap) {n k : String} (v : JsVal) (h : k ≠ n) :
    getValue (setValue props n v) k = getValue props k := by
  unfold getValue
  rw [lookup_setValue_ne props v h]

theorem writeAll_lookup_notin (props : PropsMap) (entries : List (String × JsVal))
    (n : String) (h : n ∉ entries.map Prod.fst) :
    lookupProp (writeAll props entries).fst n = lookupProp props n := by
  induction entries generalizing props with
  | nil => rfl
  | cons e rest ih =>
    obtain ⟨k, v⟩ := e
    simp only [List.map_cons, List.mem_cons] at h
    push_neg at h
    obtain ⟨hne, hrest⟩ := h
    simp only [writeAll]
    rw [ih (setValue props k v) hrest, lookup_setValue_ne props v hne]

theorem writeAll_shape (props : PropsMap) (entries : List (String × JsVal)) (k : String) :
    (lookupProp (writeAll props entries).fst k).map PropRec.shape =
      (lookupProp props k).map PropRec.shape := by
  induction entries generalizing props with
  | nil => rfl
  | cons e rest ih =>
    obtain ⟨n, v⟩ := e
    simp only [writeAll]
    rw [ih (setValue props n v), shape_setValue]

theorem writeAll_lookup_mem (props : PropsMap) (entries : List (String × JsVal))
    (n : String) (v : JsVal) (hnd : (entries.map Prod.fst).Nodup) (hm : (n, v) ∈ entries) :
    lookupProp (writeAll props entries).fst n =
      (lookupProp props n).map (fun p => { p with value := v }) := by
  induction entries generalizing props with
  | nil => cases hm
  | cons e rest ih =>
    obtain ⟨k, w⟩ := e
    simp only [List.map_cons, List.nodup_cons] at hnd
    obtain ⟨hk, hnd2⟩ := hnd
    simp only [writeAll]
    rcases List.mem_cons.mp hm with heq | hmem
    · obtain ⟨h1, h2⟩ := Prod.mk.injEq .. ▸ heq
      subst h1; subst h2
      rw [writeAll_lookup_notin (setValue props n v) rest n hk, lookup_setValue_self]
    · have hne : n ≠ k := by
        intro heq2
        exact hk (heq2 ▸ List.mem_map_of_mem Prod.fst hmem)
      rw [ih (setValue props k w) hnd2 hmem, lookup_setValue_ne props w hne]

theorem map_getValue_setValue_notin (props : PropsMap) (k : String) (v : JsVal)
    (l : List (String × JsVal)) (h : k ∉ l.map Prod.fst) :
    l.map (fun e => getValue (setValue props k v) e.fst) =
      l.map (fun e => getValue props e.fst) := by
  induction l with
  | nil => rfl
  | cons e rest ih =>
    simp only [List.map_cons, List.mem_cons] at h ⊢
    push_neg at h
    obtain ⟨hne, hrest⟩ := h
    rw [ih hrest, getValue_setValue_ne props v (Ne.symm hne)]

theorem writeAll_snd (props : PropsMap) (entries : List (String × JsVal))
    (hnd : (entries.map Prod.fst).Nodup) :
    (writeAll props entries).snd = entries.map (fun e => getValue props e.fst) := by
  induction entries generalizing props with
  | nil => rfl
  | cons e rest ih =>
    obtain ⟨k, v⟩ := e
    simp only [List.map_cons, List.nodup_cons] at hnd
    obtain ⟨hk, hnd2⟩ := hnd
    simp only [writeAll, List.map_cons]
    rw [ih (setValue props k v) hnd2, map_getValue_setValue_notin props k v rest hk]

theorem notifyAll_eq_spec (props props0 : PropsMap)
    (hs : ∀ k, (lookupProp props k).map PropRec.shape = (lookupProp props0 k).map PropRec.shape)
    (entries : List (String × JsVal)) :
    notifyAll props (zipOlds entries (entries.map (fun e => getValue props0 e.fst))) =
      batchNotifySpec props0 entries := by
  induction entries with
  | nil => rfl
  | cons e rest ih =>
    obtain ⟨n, v⟩ := e
    simp only [List.map_cons, zipOlds, notifyAll, batchNotifySpec, ih]
    congr 1
    have h := hs n
    cases h0 : lookupProp props0 n with
    | none =>
      rw [h0] at h
      have h1 : lookupProp props n = none := by
        cases h2 : lookupProp props n
        · rfl
        · rw [h2] at h; simp at h
      simp [didChangeAt, h1]
    | some p =>
      rw [h0] at h
      cases h1 : lookupProp props n with
      | none => rw [h1] at h; simp at h
      | some q =>
        rw [h1] at h
        simp only [Option.map_some', Option.some.injEq] at h
        have hdc : q.didChange = p.didChange := congrArg (fun s => s.snd.snd) h
        have hval : getValue props0 n = p.value := by simp [getValue, h0]
        simp [didChangeAt, h1, hdc, hval]

theorem findMissing_none (props : PropsMap) (ks : List String)
    (h : findMissing props ks = none) : ∀ k ∈ ks, (lookupProp props k).isSome := by
  induction ks with
  | nil => intro k hk; cases hk
  | cons a rest ih =>
    intro k hk
    unfold findMissing at h
    by_cases ha : (lookupProp props a).isSome
    · rw [if_pos ha] at h
      rcases List.mem_cons.mp hk with heq | hmem
      · exact heq ▸ ha
      · exact ih h k hmem
    · rw [if_neg ha] at h; cases h

theorem findMissing_some (props : PropsMap) (ks : List String) (d : String)
    (h : findMissing props ks = some d) : d ∈ ks ∧ lookupProp props d = none := by
  induction ks with
  | nil => cases h
  | cons a rest ih =>
    unfold findMissing at h
    by_cases ha : (lookupProp props a).isSome
    · rw [if_pos ha] at h
      obtain ⟨hmem, hnone⟩ := ih h
      exact ⟨List.mem_cons_of_mem a hmem, hnone⟩
    · rw [if_neg ha] at h
      obtain rfl : a = d := Option.some.inj h
      refine ⟨List.mem_cons_self a rest, ?_⟩
      cases h2 : lookupProp props a
      · rfl
      · rw [h2] at ha; simp at ha

theorem firstValidatorErr_some (pv : Validator) (props : PropsMap) (ks : List String)
    (e : String) (h : firstValidatorErr pv props ks = some e) :
    ∃ k, k ∈ ks ∧ pv props k = Except.error e := by
  induction ks with
  | nil => cases h
  | cons a rest ih =>
    unfold firstValidatorErr at h
    cases ha : pv props a with
    | error e2 =>
      rw [ha] at h
      obtain rfl : e2 = e := Option.some.inj h
      exact ⟨a, List.mem_cons_self a rest, ha⟩
    | ok u =>
      rw [ha] at h
      obtain ⟨k, hmem, hk⟩ := ih h
      exact ⟨k, List.mem_cons_of_mem a hmem, hk⟩

theorem firstValueValidatorErr_some (props : PropsMap) (entries : List (String × JsVal))
    (e : String) (h : firstValueValidatorErr props entries = some e) :
    ∃ n v p, (n, v) ∈ entries ∧ lookupProp props n = some p ∧
      p.valueValidator v JsVal.undef = Except.error e := by
  induction entries with
  | nil => cases h
  | cons a rest ih =>
    obtain ⟨n, v⟩ := a
    cases hl : lookupProp props n with
    | none =>
      simp only [firstValueValidatorErr, hl] at h
      obtain ⟨n2, v2, p2, hmem, hl2, hv2⟩ := ih h
      exact ⟨n2, v2, p2, List.mem_cons_of_mem _ hmem, hl2, hv2⟩
    | some p =>
      cases hv : p.valueValidator v JsVal.undef with
      | error e2 =>
        simp only [firstValueValidatorErr, hl, hv, Option.some.injEq] at h
        subst h
        exact ⟨n, v, p, List.mem_cons_self _ _, hl, hv⟩
      | ok u =>
        simp only [firstValueValidatorErr, hl, hv] at h
        obtain ⟨n2, v2, p2, hmem, hl2, hv2⟩ := ih h
        exact ⟨n2, v2, p2, List.mem_cons_of_mem _ hmem, hl2, hv2⟩

theorem subsFor_eq_nil (subs : List (String × DHandler)) (topic : String)
    (h : ∀ s ∈ subs, s.fst ≠ topic) : subsFor subs topic = [] := by
  unfold subsFor
  have : subs.filter (fun s => s.fst = topic) = [] := by
    rw [List.filter_eq_nil_iff]
    intro s hs
    simpa using h s hs
  rw [this]
  rfl

theorem fanoutWith_no_subs (doSet : Model → String → JsVal → Res) (m : Model)
    (evs : List Event) (h : ∀ ev ∈ evs, subsFor m.subs ev.topic = []) :
    fanoutWith doSet m evs = Res.ok m evs := by
  induction evs with
  | nil => rfl
  | cons ev rest ih =>
    unfold fanoutWith
    rw [h ev (List.mem_cons_self ev rest)]
    simp only [runSubsWith]
    rw [ih (fun e he => h e (List.mem_cons_of_mem ev he))]
    rfl

theorem didChangeAt_setValue_self (props : PropsMap) (n : String) (v old : JsVal)
    (p : PropRec) (h : lookupProp props n = some p) :
    didChangeAt (setValue props n v) n v old = p.didChange v old := by
  unfold didChangeAt
  rw [lookup_setValue_self, h]
  rfl

theorem setSingleT_ok_char (pv : Validator) (m : Model) (n : String) (v : JsVal)
    (p : PropRec) (h : lookupProp m.props n = some p) (hpv : pv m.props n = Except.ok ())
    (hvv : p.valueValidator v JsVal.undef = Except.ok ()) :
    setSingleT pv m n v =
      Res.ok { m with props := setValue m.props n v }
        (if p.didChange v p.value then [mkEvent n v p.value] else []) := by
  unfold setSingleT
  simp only [h, hpv, hvv]
  rw [didChangeAt_setValue_self m.props n v p.value p h]
  cases p.didChange v p.value <;> rfl

theorem setSingleT_err_pv (pv : Validator) (m : Model) (n : String) (v : JsVal)
    (p : PropRec) (e : String) (h : lookupProp m.props n = some p)
    (hpv : pv m.props n = Except.error e) :
    setSingleT pv m n v = Res.err e m [] := by
  unfold setSingleT
  simp only [h, hpv]

theorem lookup_append_self (props : PropsMap) (n : String) (r : PropRec)
    (h : lookupProp props n = none) : lookupProp (props ++ [(n, r)]) n = some r := by
  induction props with
  | nil => simp [lookupProp]
  | cons hd rest ih =>
    obtain ⟨k, p⟩ := hd
    by_cases hk : k = n
    · rw [lookupProp, if_pos hk] at h; cases h
    · rw [lookupProp, if_neg hk] at h
      rw [List.cons_append, lookupProp, if_neg hk]
      exact ih h

theorem defineDerivedT_model_props (m : Model) (n : String) (deps : List String)
    (cf : List JsVal → JsVal) (iv : JsVal) (dc : JsVal → JsVal → Bool)
    (hn : lookupProp m.props n = none) (hdeps : findMissing m.props deps = none) :
    (defineDerivedT m n deps cf iv dc).model.props =
      m.props ++ [(n,
        { value := if iv = JsVal.undef then calcUtilizer m.props deps cf else iv
          derived := true
          valueValidator := fun _ _ => Except.ok ()
          didChange := dc })] := by
  unfold defineDerivedT
  simp only [hn, hdeps]
  cases dc (if iv = JsVal.undef then calcUtilizer m.props deps cf else iv) JsVal.undef <;> rfl

theorem accessCheck_none_readwrite (readV writeV : Validator) (props : PropsMap) :
    ∀ (pa : List (String × String)),
      accessCheck readV writeV props pa = none →
      ∀ n acc, (n, acc) ∈ pa → lowerStr acc = "readwrite" →
        readV props n = Except.ok () ∧ writeV props n = Except.ok () := by
  intro pa
  induction pa with
  | nil => intro _ n acc h1; cases h1
  | cons e rest ih =>
    obtain ⟨k, a⟩ := e
    intro h n acc hmem hrw
    unfold accessCheck at h
    by_cases hk : (lookupProp props k).isSome
    case neg => rw [if_neg hk] at h; cases h
    rw [if_pos hk] at h
    rcases List.mem_cons.mp hmem with heq | hmem2
    · cases heq
      simp only [hrw, if_true] at h
      cases hrv : readV props k with
      | error e2 =>
        simp only [hrv] at h
        exact Option.noConfusion h
      | ok u =>
        cases u
        simp only [hrv] at h
        cases hwv : writeV props k with
        | error e2 =>
          simp only [hwv] at h
          exact Option.noConfusion h
        | ok u2 =>
          cases u2
          exact ⟨rfl, rfl⟩
    · by_cases hro : lowerStr a = "readonly"
      · rw [if_pos hro] at h
        cases hrv : readV props k with
        | error e2 =>
          simp only [hrv] at h
          exact Option.noConfusion h
        | ok u =>
          simp only [hrv] at h
          exact ih h n acc hmem2 hrw
      · rw [if_neg hro] at h
        by_cases hrw2 : lowerStr a = "readwrite"
        · rw [if_pos hrw2] at h
          cases hrv : readV props k with
          | error e2 =>
            simp only [hrv] at h
            exact Option.noConfusion h
          | ok u =>
            simp only [hrv] at h
            cases hwv : writeV props k with
            | error e2 =>
              simp only [hwv] at h
              exact Option.noConfusion h
            | ok u2 =>
              simp only [hwv] at h
              exact ih h n acc hmem2 hrw
        · rw [if_neg hrw2] at h
          by_cases hno : lowerStr a = "none"
          · rw [if_pos hno] at h
            exact ih h n acc hmem2 hrw
          · rw [if_neg hno] at h; cases h

theorem buildAccessors_readwrite_mem : ∀ (pa : List (String × String)) (n acc : String),
    (n, acc) ∈ pa → lowerStr acc = "readwrite" →
    ("set" ++ capFirst n, Accessor.setter (fun m v => setSingleT noVal m n v)) ∈
      buildAccessors pa := by
  intro pa
  induction pa with
  | nil => intro n acc h; cases h
  | cons e rest ih =>
    obtain ⟨k, a⟩ := e
    intro n acc hmem hrw
    unfold buildAccessors
    rcases List.mem_cons.mp hmem with heq | hmem2
    · cases heq
      simp only [hrw, if_true]
      exact List.mem_append_left _ (List.mem_cons_of_mem _ (List.mem_cons_self _ _))
    · exact List.mem_append_right _ (ih n acc hmem2 hrw)

/- ------------------------------------------------------------------ -/
/- Claim theorems.                                                     -/
/- ------------------------------------------------------------------ -/

/-- Claim C10: for every defined property and value, the single-property
call `set(name, value)` and the one-entry batch call `set({name: value})`
are equivalent — same existence, access and value-validation checks, the
same final store state, the same thrown error if any, and the same change
notifications, both at the store layer and including the full synchronous
notification cascade. -/
theorem C10_single_set_equals_singleton_batch :
    ∀ (pv : Validator) (m : Model) (n : String) (v : JsVal) (fuel : Nat),
      setSingleT pv m n v = setBatchT pv m [(n, v)] ∧
      singleSetModel fuel pv m n v = batchSetModel fuel pv m [(n, v)] := by
  intro pv m n v fuel
  refine ⟨setSingle_eq_batchOne pv m n v, ?_⟩
  unfold singleSetModel batchSetModel
  rw [setSingle_eq_batchOne]

/-- Claim C2: for both the single-property and the batch form of `set`, if
the existence check, the access validator, or a property's value validator
raises, then the error is propagated verbatim (it originates from exactly
one of those three checks), no property's stored value changes (the model
at the moment of the throw is the pre-call model), and no change
notification is emitted. -/
theorem C2_failed_set_is_no_op :
    (∀ (pv : Validator) (m : Model) (n : String) (v : JsVal) (e : String)
        (m2 : Model) (evs : List Event),
        setSingleT pv m n v = Res.err e m2 evs →
        m2 = m ∧ evs = [] ∧
          (e = noSuchMsg n ∨ pv m.props n = Except.error e ∨
            ∃ p, lookupProp m.props n = some p ∧
              p.valueValidator v JsVal.undef = Except.error e)) ∧
    (∀ (pv : Validator) (m : Model) (entries : List (String × JsVal)) (e : String)
        (m2 : Model) (evs : List Event),
        setBatchT pv m entries = Res.err e m2 evs →
        m2 = m ∧ evs = [] ∧
          ((∃ k, k ∈ entries.map Prod.fst ∧ lookupProp m.props k = none ∧ e = noSuchMsg k) ∨
           (∃ k, k ∈ entries.map Prod.fst ∧ pv m.props k = Except.error e) ∨
           (∃ n2 v2 p, (n2, v2) ∈ entries ∧ lookupProp m.props n2 = some p ∧
              p.valueValidator v2 JsVal.undef = Except.error e))) := by
  constructor
  · intro pv m n v e m2 evs h
    unfold setSingleT at h
    cases hl : lookupProp m.props n with
    | none =>
      simp only [hl] at h
      injection h with h1 h2 h3
      exact ⟨h2.symm, h3.symm, Or.inl h1.symm⟩
    | some p =>
      simp only [hl] at h
      cases hpv : pv m.props n with
      | error e2 =>
        simp only [hpv] at h
        injection h with h1 h2 h3
        exact ⟨h2.symm, h3.symm, Or.inr (Or.inl (by rw [h1]))⟩
      | ok u =>
        simp only [hpv] at h
        cases hvv : p.valueValidator v JsVal.undef with
        | error e2 =>
          simp only [hvv] at h
          injection h with h1 h2 h3
          exact ⟨h2.symm, h3.symm, Or.inr (Or.inr ⟨p, rfl, h1 ▸ hvv⟩)⟩
        | ok u2 =>
          simp only [hvv] at h
          split at h <;> exact Res.noConfusion h
  · intro pv m entries e m2 evs h
    unfold setBatchT at h
    cases hfm : findMissing m.props (entries.map Prod.fst) with
    | some k =>
      simp only [hfm] at h
      injection h with h1 h2 h3
      obtain ⟨hmem, hnone⟩ := findMissing_some m.props (entries.map Prod.fst) k hfm
      exact ⟨h2.symm, h3.symm, Or.inl ⟨k, hmem, hnone, h1.symm⟩⟩
    | none =>
      simp only [hfm] at h
      cases hfv : firstValidatorErr pv m.props (entries.map Prod.fst) with
      | some e2 =>
        simp only [hfv] at h
        injection h with h1 h2 h3
        obtain ⟨k, hmem, hk⟩ := firstValidatorErr_some pv m.props (entries.map Prod.fst) e2 hfv
        exact ⟨h2.symm, h3.symm, Or.inr (Or.inl ⟨k, hmem, h1 ▸ hk⟩)⟩
      | none =>
        simp only [hfv] at h
        cases hvvE : firstValueValidatorErr m.props entries with
        | some e2 =>
          simp only [hvvE] at h
          injection h with h1 h2 h3
          obtain ⟨n2, v2, p, hmem, hl, hv⟩ :=
            firstValueValidatorErr_some m.props entries e2 hvvE
          exact ⟨h2.symm, h3.symm, Or.inr (Or.inr ⟨n2, v2, p, hmem, hl, h1 ▸ hv⟩)⟩
        | none =>
          simp only [hvvE] at h
          exact Res.noConfusion h

/-- Witness for C2: the value validator of `x` in `exC4m` rejects the write
`set("x", 7)`, and the theorem instantiated there shows the store and the
event trace are untouched. -/
theorem C2_failed_set_is_no_op_witness : exC4m = exC4m ∧ ([] : List Event) = [] :=
  ⟨(C2_failed_set_is_no_op.1 noVal exC4m "x" (JsVal.num 7)
      ("second argument was undefined") exC4m [] rfl).1,
   (C2_failed_set_is_no_op.1 noVal exC4m "x" (JsVal.num 7)
      ("second argument was undefined") exC4m [] rfl).2.1⟩

/-- Claim C1: a successful batch `set` first overwrites every property's
stored value and only then emits the notifications, one per entry in the
batch's iteration order, computed from the pre-batch values (the final
store holds every batch value, non-members are untouched, everything but
the values is preserved, and the emitted events are exactly
`batchNotifySpec`); consequently a derived property recomputing during the
batch's notification fan-out reads post-batch values: in the concrete
three-primaries-one-derived model, `set({foo1:11, foo2:9, foo3:4})` leaves
the derived property equal to `calculator(11, 9, 4) = 11 + 2*9 + 3*4 = 41`. -/
theorem C1_batch_atomicity :
    (∀ (pv : Validator) (m : Model) (entries : List (String × JsVal)) (m2 : Model)
        (evs : List Event),
        (entries.map Prod.fst).Nodup →
        setBatchT pv m entries = Res.ok m2 evs →
        (∀ n v, (n, v) ∈ entries → getValue m2.props n = v) ∧
        (∀ n, n ∉ entries.map Prod.fst → lookupProp m2.props n = lookupProp m.props n) ∧
        (∀ k, (lookupProp m2.props k).map PropRec.shape =
          (lookupProp m.props k).map PropRec.shape) ∧
        evs = batchNotifySpec m.props entries) ∧
    getT noVal exC1res.model "d" = Except.ok (JsVal.num 41) := by
  constructor
  · intro pv m entries m2 evs hnd h
    unfold setBatchT at h
    cases hfm : findMissing m.props (entries.map Prod.fst) with
    | some k => simp only [hfm] at h; exact Res.noConfusion h
    | none =>
      simp only [hfm] at h
      cases hfv : firstValidatorErr pv m.props (entries.map Prod.fst) with
      | some e => simp only [hfv] at h; exact Res.noConfusion h
      | none =>
        simp only [hfv] at h
        cases hvvE : firstValueValidatorErr m.props entries with
        | some e => simp only [hvvE] at h; exact Res.noConfusion h
        | none =>
          simp only [hvvE] at h
          injection h with h1 h2
          subst h1
          subst h2
          refine ⟨?_, ?_, ?_, ?_⟩
          · intro n v hm
            have hsome : (lookupProp m.props n).isSome :=
              findMissing_none m.props (entries.map Prod.fst) hfm n
                (List.mem_map_of_mem Prod.fst hm)
            cases hl : lookupProp m.props n with
            | none => rw [hl] at hsome; simp at hsome
            | some p =>
              show getValue (writeAll m.props entries).fst n = v
              unfold getValue
              rw [writeAll_lookup_mem m.props entries n v hnd hm, hl]
              rfl
          · intro n hn
            exact writeAll_lookup_notin m.props entries n hn
          · intro k
            exact writeAll_shape m.props entries k
          · show notifyAll (writeAll m.props entries).fst
              (zipOlds entries (writeAll m.props entries).snd) = batchNotifySpec m.props entries
            rw [writeAll_snd m.props entries hnd]
            exact notifyAll_eq_spec (writeAll m.props entries).fst m.props
              (writeAll_shape m.props entries) entries
  · rfl

/-- Witness for C1: instantiating the structural half at the concrete
three-primaries batch shows `foo1` holds `11` in the post-batch store. -/
theorem C1_batch_atomicity_witness :
    getValue exC1setRes.model.props "foo1" = JsVal.num 11 :=
  (C1_batch_atomicity.1 noVal exC1m exC1entries exC1setRes.model exC1setRes.events
    (by decide) rfl).1 "foo1" (JsVal.num 11) (by decide)

/-- Counterexample to claim C3 as stated: on the standard public view,
`set` on the underscore-prefixed derived property `_d` raises the
"not publicly accessible" error, not the "derived property" error the
claim asserts for derived properties of any name. -/
theorem C3_derived_write_error_counterexample :
    setSingleT publicWriteValidator exC3m "_d" (JsVal.num 0) =
      Res.err (notPublicMsg "_d") exC3m [] ∧
    notPublicMsg "_d" ≠ derivedMsg "_d" :=
  ⟨rfl, by decide⟩

/-- Claim C3 amended: the standard private view rejects `set` on any
derived property, whatever its name, with the "derived property" error;
the standard public view does so too for derived properties whose name is
public, but rejects underscore-prefixed derived properties with the
"not publicly accessible" error instead (its name gate runs first). -/
theorem C3_derived_write_gating_amended :
    (∀ (m : Model) (d : String) (v : JsVal) (p : PropRec),
        lookupProp m.props d = some p → p.derived = true →
        setSingleT privateWriteValidator m d v = Res.err (derivedMsg d) m []) ∧
    (∀ (m : Model) (d : String) (v : JsVal) (p : PropRec),
        lookupProp m.props d = some p → p.derived = true → propNameIsPublic d = true →
        setSingleT publicWriteValidator m d v = Res.err (derivedMsg d) m []) ∧
    (∀ (m : Model) (d : String) (v : JsVal) (p : PropRec),
        lookupProp m.props d = some p → p.derived = true → propNameIsPublic d = false →
        setSingleT publicWriteValidator m d v = Res.err (notPublicMsg d) m []) := by
  refine ⟨?_, ?_, ?_⟩
  · intro m d v p hl hd
    exact setSingleT_err_pv privateWriteValidator m d v p (derivedMsg d) hl
      (by simp [privateWriteValidator, standardWriteValidator, hl, hd])
  · intro m d v p hl hd hpub
    exact setSingleT_err_pv publicWriteValidator m d v p (derivedMsg d) hl
      (by simp [publicWriteValidator, assertPropNameIsPublic, hpub,
        standardWriteValidator, hl, hd])
  · intro m d v p hl hd hpub
    exact setSingleT_err_pv publicWriteValidator m d v p (notPublicMsg d) hl
      (by simp [publicWriteValidator, assertPropNameIsPublic, hpub])

/-- Witness for the amended C3 at the concrete store with derived `d` and
derived `_d`. -/
theorem C3_derived_write_gating_amended_witness :
    setSingleT privateWriteValidator exC3m "d" (JsVal.num 1) =
      Res.err (derivedMsg "d") exC3m [] ∧
    setSingleT publicWriteValidator exC3m "d" (JsVal.num 1) =
      Res.err (derivedMsg "d") exC3m [] ∧
    setSingleT publicWriteValidator exC3m "_d" (JsVal.num 1) =
      Res.err (notPublicMsg "_d") exC3m [] :=
  ⟨C3_derived_write_gating_amended.1 exC3m "d" (JsVal.num 1) exDerivedRec rfl rfl,
   C3_derived_write_gating_amended.2.1 exC3m "d" (JsVal.num 1) exDerivedRec rfl rfl
     (by decide),
   C3_derived_write_gating_amended.2.2 exC3m "_d" (JsVal.num 1) exDerivedRec rfl rfl
     (by decide)⟩

/-- Counterexample to claim C4 as stated: the source calls
`valueValidator(value)` with a single argument, so a validator that
inspects its second parameter sees `undefined` where the claim promises
the property's current value — the actual `set` rejects the write while
the claimed calling convention (`setSingleClaimArgs`) would accept it. -/
theorem C4_validator_arguments_counterexample :
    (setSingleT noVal exC4m "x" (JsVal.num 7)).errMsg =
      some ("second argument was undefined") ∧
    (setSingleClaimArgs noVal exC4m "x" (JsVal.num 7)).errMsg = none :=
  ⟨rfl, rfl⟩

/-- Claim C4 amended: when `set` (single-property form, and equally the
one-entry batch form) runs a primary property's value validator, the
validator is invoked with the incoming value as its only argument — its
second parameter receives `undefined`, not the current value — and the
outcome of the call is decided entirely by the validator's verdict at
`(incomingValue, undefined)`. -/
theorem C4_validator_arguments_amended :
    ∀ (pv : Validator) (m : Model) (n : String) (v : JsVal) (p : PropRec),
      lookupProp m.props n = some p → pv m.props n = Except.ok () →
      setSingleT pv m n v =
        (match p.valueValidator v JsVal.undef with
         | Except.error e => Res.err e m []
         | Except.ok _ =>
           Res.ok { m with props := setValue m.props n v }
             (if p.didChange v p.value then [mkEvent n v p.value] else [])) ∧
      setBatchT pv m [(n, v)] =
        (match p.valueValidator v JsVal.undef with
         | Except.error e => Res.err e m []
         | Except.ok _ =>
           Res.ok { m with props := setValue m.props n v }
             (if p.didChange v p.value then [mkEvent n v p.value] else [])) := by
  intro pv m n v p hl hpv
  have hmain : setSingleT pv m n v =
      (match p.valueValidator v JsVal.undef with
       | Except.error e => Res.err e m []
       | Except.ok _ =>
         Res.ok { m with props := setValue m.props n v }
           (if p.didChange v p.value then [mkEvent n v p.value] else [])) := by
    cases hvv : p.valueValidator v JsVal.undef with
    | error e =>
      unfold setSingleT
      simp only [hl, hpv, hvv]
    | ok u =>
      cases u
      rw [setSingleT_ok_char pv m n v p hl hpv hvv]
  refine ⟨hmain, ?_⟩
  rw [← setSingle_eq_batchOne]
  exact hmain

/-- Witness for the amended C4 at the concrete store `exC4m`: the
validator's verdict at `(7, undefined)` (a rejection) is what the calls
return. -/
theorem C4_validator_arguments_amended_witness :
    setSingleT noVal exC4m "x" (JsVal.num 7) =
      Res.err ("second argument was undefined") exC4m [] ∧
    setBatchT noVal exC4m [("x", JsVal.num 7)] =
      Res.err ("second argument was undefined") exC4m [] :=
  C4_validator_arguments_amended noVal exC4m "x" (JsVal.num 7) exC4rec rfl rfl

/-- Counterexample to claim C5 as stated: `_get` applies the view's access
validator *before* the existence check, so reading the never-defined
`_nope` through the standard public view raises the "not publicly
accessible" error rather than the UnknownProperty error the claim puts
first. -/
theorem C5_get_error_order_counterexample :
    getT publicReadValidator emptyModel "_nope" =
      Except.error (notPublicMsg "_nope") ∧
    notPublicMsg "_nope" ≠ noSuchMsg "_nope" :=
  ⟨rfl, by decide⟩

/-- Claim C5 amended: `get` applies the access validator first; whatever
error it raises is propagated, and only when it passes does an undefined
name fail with the UnknownProperty error — in particular on the
unrestricted store, whose access validator never raises, every unknown
name fails with UnknownProperty. -/
theorem C5_get_unknown_property_amended :
    ∀ (pv : Validator) (m : Model) (n : String),
      lookupProp m.props n = none →
      ((∀ e, pv m.props n = Except.error e → getT pv m n = Except.error e) ∧
       (pv m.props n = Except.ok () → getT pv m n = Except.error (noSuchMsg n))) := by
  intro pv m n hl
  constructor
  · intro e hpv
    unfold getT
    simp only [hpv]
  · intro hpv
    unfold getT
    simp only [hpv, hl]

/-- Witness for the amended C5: the unrestricted store's `get` on an
unknown name fails with the UnknownProperty error. -/
theorem C5_get_unknown_property_amended_witness :
    getT noVal emptyModel "x" = Except.error (noSuchMsg "x") :=
  (C5_get_unknown_property_amended noVal emptyModel "x" rfl).2 rfl

/-- Claim C6: `defineDerivedProp` on a fresh name whose `dependsOn` list
contains a name that is not yet a defined property (the first such entry
in list order, which also covers self- and forward-references) raises the
unknown-property error "Cannot create utilizer of unknown property
'{dep}'", leaves the store, subscriptions and event trace untouched, and a
subsequent `get` of the would-be property still fails with
UnknownProperty. -/
theorem C6_unknown_dependency_rejected :
    ∀ (m : Model) (n : String) (deps : List String) (calcFn : List JsVal → JsVal)
      (initV : JsVal) (dc : JsVal → JsVal → Bool) (d : String),
      lookupProp m.props n = none → findMissing m.props deps = some d →
      d ∈ deps ∧ lookupProp m.props d = none ∧
      defineDerivedT m n deps calcFn initV dc = Res.err (utilizerMsg d) m [] ∧
      getT noVal m n = Except.error (noSuchMsg n) := by
  intro m n deps calcFn initV dc d hn hd
  obtain ⟨hmem, hnone⟩ := findMissing_some m.props deps d hd
  refine ⟨hmem, hnone, ?_, ?_⟩
  · unfold defineDerivedT
    simp only [hn, hd]
  · unfold getT
    simp only [noVal, hn]

/-- Witness for C6: with only `foo` defined,
`defineDerivedProp("bar", ["foo", "baz"], ...)` fails on `baz` and `bar`
is never created. -/
theorem C6_unknown_dependency_rejected_witness :
    "baz" ∈ ["foo", "baz"] ∧ lookupProp exFooM.props "baz" = none ∧
    defineDerivedT exFooM "bar" ["foo", "baz"] sumCalc JsVal.undef defaultDidChange =
      Res.err (utilizerMsg "baz") exFooM [] ∧
    getT noVal exFooM "bar" = Except.error (noSuchMsg "bar") :=
  C6_unknown_dependency_rejected exFooM "bar" ["foo", "baz"] sumCalc JsVal.undef
    defaultDidChange "baz" rfl rfl

/-- Claim C7: in `defineDerivedProp`, when the supplied initial value is
`undefined` (indistinguishable from not supplied), the stored initial
value is the calculator applied to the current values of the dependencies
in declared order; otherwise the stored initial value is exactly the
supplied value, whatever the calculator is (so the calculator is not
consulted for initialization). -/
theorem C7_derived_initial_value :
    ∀ (m : Model) (n : String) (deps : List String) (calcFn : List JsVal → JsVal)
      (initV : JsVal) (dc : JsVal → JsVal → Bool),
      lookupProp m.props n = none → findMissing m.props deps = none →
      ((initV = JsVal.undef →
          getValue (defineDerivedT m n deps calcFn initV dc).model.props n =
            calcFn (deps.map (getValue m.props))) ∧
       (initV ≠ JsVal.undef →
          ∀ calcFn2 : List JsVal → JsVal,
            getValue (defineDerivedT m n deps calcFn2 initV dc).model.props n = initV)) := by
  intro m n deps calcFn initV dc hn hdeps
  constructor
  · intro h0
    subst h0
    unfold getValue
    rw [defineDerivedT_model_props m n deps calcFn JsVal.undef dc hn hdeps,
      lookup_append_self m.props n _ hn]
    rfl
  · intro h0 calcFn2
    unfold getValue
    rw [defineDerivedT_model_props m n deps calcFn2 initV dc hn hdeps,
      lookup_append_self m.props n _ hn]
    simp only [if_neg h0]

/-- Witness for C7: over `a = 2`, `b = 3`, an omitted/undefined initial
value stores `sumCalc(2, 3)`, and an explicit initial value `99` is stored
as-is. -/
theorem C7_derived_initial_value_witness :
    getValue
        (defineDerivedT exC7m "s" ["a", "b"] sumCalc JsVal.undef
          defaultDidChange).model.props "s" =
      sumCalc (["a", "b"].map (getValue exC7m.props)) ∧
    getValue
        (defineDerivedT exC7m "s2" ["a", "b"] sumCalc (JsVal.num 99)
          defaultDidChange).model.props "s2" =
      JsVal.num 99 :=
  ⟨(C7_derived_initial_value exC7m "s" ["a", "b"] sumCalc JsVal.undef
      defaultDidChange rfl rfl).1 rfl,
   (C7_derived_initial_value exC7m "s2" ["a", "b"] sumCalc (JsVal.num 99)
      defaultDidChange rfl rfl).2 (by decide) sumCalc⟩

/-- Claim C8: `defineProp` on a fresh name appends the new primary
property record, evaluates `changeRule(initialValue, undefined)`, and
emits exactly one notification `(name, initialValue, undefined)` on topic
`"{name}-changed"` when that is truthy and none otherwise (no other event
can cascade from it since no subscription listens on a fresh name's
topic), returning the updated store; concretely,
`defineProp("x", 314158)` on a fresh store emits exactly once. -/
theorem C8_define_prop_initial_notification :
    (∀ (fuel : Nat) (m : Model) (n : String) (initV : JsVal)
        (vv : JsVal → JsVal → Except String Unit) (dc : JsVal → JsVal → Bool),
        lookupProp m.props n = none →
        (∀ s ∈ m.subs, s.fst ≠ changedTopic n) →
        definePropModel fuel m n initV vv dc =
          Res.ok { props := m.props ++ [(n,
                { value := initV, derived := false, valueValidator := vv, didChange := dc })],
                   subs := m.subs }
            (if dc initV JsVal.undef then [mkEvent n initV JsVal.undef] else [])) ∧
    definePropModel 5 emptyModel "x" (JsVal.num 314158) noopValueValidator defaultDidChange =
      Res.ok { props := [("x", plainRec (JsVal.num 314158))], subs := [] }
        [mkEvent "x" (JsVal.num 314158) JsVal.undef] := by
  constructor
  · intro fuel m n initV vv dc hn hsubs
    unfold definePropModel definePropT
    simp only [hn]
    cases hdc : dc initV JsVal.undef with
    | false =>
      simp only [Bool.false_eq_true, if_false]
      rfl
    | true =>
      simp only [if_true]
      apply fanoutWith_no_subs
      intro ev hev
      rcases List.mem_singleton.mp hev with rfl
      exact subsFor_eq_nil m.subs (changedTopic n) hsubs
  · rfl

/-- Witness for C8 at a fresh store. -/
theorem C8_define_prop_initial_notification_witness :
    definePropModel 3 emptyModel "y" (JsVal.num 2) noopValueValidator defaultDidChange =
      Res.ok { props := [("y", plainRec (JsVal.num 2))], subs := [] }
        (if defaultDidChange (JsVal.num 2) JsVal.undef
          then [mkEvent "y" (JsVal.num 2) JsVal.undef] else []) :=
  C8_define_prop_initial_notification.1 3 emptyModel "y" (JsVal.num 2) noopValueValidator
    defaultDidChange rfl (by simp [emptyModel])

/-- Counterexample to claim C9 as stated: install a `readwrite` accessor
pair for `x` through a view whose (state-reading) write validator passes
at installation time, then flip the state so the validator rejects.  The
installed `setX` still succeeds and mutates `x` — it delegates to the
store's unrestricted `_set(() => {}, ...)` — while the view's own `set`
rejects with the validator's error, so the installed setter does not apply
the view's write validator on each invocation. -/
theorem C9_installed_setter_counterexample :
    (exC9setter exC9m2 (JsVal.num 5)).errMsg = none ∧
    getValue (exC9setter exC9m2 (JsVal.num 5)).model.props "x" = JsVal.num 5 ∧
    (setSingleT lockedWriteValidator exC9m2 "x" (JsVal.num 5)).errMsg = some ("locked") ∧
    getValue (setSingleT lockedWriteValidator exC9m2 "x" (JsVal.num 5)).model.props "x" =
      JsVal.num 1 :=
  ⟨rfl, rfl, rfl, rfl⟩

/-- Claim C9 amended: for a `readwrite` entry, a successful
`installAccessors` through a view has applied the view's read and write
validators for that entry once, up front, at installation time; the
installed setter named `set{Name}` delegates to the store's unrestricted
single-property set (the no-op access validator), not to the view's
validated `set`. -/
theorem C9_installed_setter_amended :
    ∀ (readV writeV : Validator) (m : Model) (pa : List (String × String))
      (res : List (String × Accessor)) (n acc : String),
      installAccessorsT readV writeV m pa = Except.ok res →
      (n, acc) ∈ pa → lowerStr acc = "readwrite" →
      ("set" ++ capFirst n, Accessor.setter (fun m2 v => setSingleT noVal m2 n v)) ∈ res ∧
      readV m.props n = Except.ok () ∧ writeV m.props n = Except.ok () := by
  intro readV writeV m pa res n acc h hmem hrw
  unfold installAccessorsT at h
  cases hc : accessCheck readV writeV m.props pa with
  | some e =>
    simp only [hc] at h
    exact Except.noConfusion h
  | none =>
    simp only [hc, Except.ok.injEq] at h
    subst h
    obtain ⟨hr, hw⟩ := accessCheck_none_readwrite readV writeV m.props pa hc n acc hmem hrw
    exact ⟨buildAccessors_readwrite_mem pa n acc hmem hrw, hr, hw⟩

/-- Witness for the amended C9 at the concrete installation through the
`lockedWriteValidator` view. -/
theorem C9_installed_setter_amended_witness :
    ("setX", Accessor.setter (fun m2 v => setSingleT noVal m2 "x" v)) ∈
        buildAccessors [("x", "readwrite")] ∧
    noVal exC9m1.props "x" = Except.ok () ∧
    lockedWriteValidator exC9m1.props "x" = Except.ok () :=
  C9_installed_setter_amended noVal lockedWriteValidator exC9m1 [("x", "readwrite")]
    (buildAccessors [("x", "readwrite")]) "x" "readwrite" rfl (by decide) rfl
